import Mathlib

/-!
# Verification of the ETL pipeline core

Shallow embedding of the repository's normalization engine
(`src/transformers/data_normalizer.py`, class `DataNormalizer`), the
pipeline controller (`src/main.py`, function `run_etl`) and the extractor
dispatch (`src/extractors/ftp_extractor.py`, method `FTPExtractor.extract`),
together with theorems settling the frozen claims about them.

Tables are modelled columnar-positionally: a `DataFrame` is a list of
column names plus rows, each row a positional list of cell values.
Machine-level collaborators (the pandas date/numeric parsers, the network,
the MySQL sink) are modelled at their interface: parsers as total Lean
functions with explicit failure (`Option`), the network as an oracle
outcome threaded into `extract`, the sink as the `loaded` field of the run
result recording whether and with what table `load` was invoked.
-/

namespace ETLSpec

/-! ## Python string primitives used by the normalizer -/

/-- Python `str` whitespace predicate (`str.strip` strips these). -/
def pyIsSpace (c : Char) : Bool :=
  c = ' ' || c = '\t' || c = '\n' || c = '\r' || c.toNat = 11 || c.toNat = 12

/-- Python `str.strip()` on a character list. -/
def pyStrip (l : List Char) : List Char :=
  ((l.dropWhile pyIsSpace).reverse.dropWhile pyIsSpace).reverse

/-- ASCII model of Python `str.lower()` on one character: shift the
code points of `A`–`Z` (65–90) down into `a`–`z`. -/
def pyLowerChar (c : Char) : Char :=
  if 65 ≤ c.toNat ∧ c.toNat ≤ 90 then Char.ofNat (c.toNat + 32) else c

/-- An ASCII upper-case letter (what "lower-case" rules out). -/
def isUpperAscii (c : Char) : Bool :=
  decide (65 ≤ c.toNat ∧ c.toNat ≤ 90)

/-- Internal-space replacement of `str.replace(' which is', '_')` on one character. -/
def spaceToUnderscore (c : Char) : Char :=
  if c = ' ' then '_' else c

/-- `col.strip().lower().replace(' ', '_')`
(`data_normalizer.py`, step 1 of `normalize`). -/
def standardizeName (s : String) : String :=
  ⟨((pyStrip s.data).map pyLowerChar).map spaceToUnderscore⟩

/-! ## Cell values -/

/-- A table cell: string, numeric, date-time, or null (NaN/NaT). -/
inductive Value : Type where
  | s (x : String)
  | n (x : Int)
  | d (x : Nat)
  | null
  deriving DecidableEq

/-- Model of the pandas date parser on strings, recognizing ISO
`YYYY-MM-DD`; the real parser accepts more formats, but every claim only
depends on the coercion contract (`some` on success, `none` on failure). -/
def parseDateString (s : String) : Option Nat :=
  match s.data with
  | [y1, y2, y3, y4, '-', m1, m2, '-', d1, d2] =>
    if ([y1, y2, y3, y4, m1, m2, d1, d2]).all Char.isDigit then
      let y := ((y1.toNat - 48) * 1000 + (y2.toNat - 48) * 100 +
        (y3.toNat - 48) * 10 + (y4.toNat - 48))
      let m := (m1.toNat - 48) * 10 + (m2.toNat - 48)
      let d := (d1.toNat - 48) * 10 + (d2.toNat - 48)
      if 1 ≤ m ∧ m ≤ 12 ∧ 1 ≤ d ∧ d ≤ 31 then
        some (y * 10000 + m * 100 + d)
      else none
    else none
  | _ => none

/-- Model of `pd.to_datetime` on one value: dates pass through, parsable
strings parse, everything else fails (numeric-epoch parsing not modelled). -/
def parseDate : Value → Option Nat
  | .d t => some t
  | .s x => parseDateString x
  | _ => none

/-- `pd.to_datetime(col, errors='coerce')` on one value: unparsable
values become null (`data_normalizer.py` line 44). -/
def coerceDate (v : Value) : Value :=
  match parseDate v with
  | some t => .d t
  | none => .null

/-- Model of the pandas numeric parser on strings: optionally signed
decimal integers (fractional parsing not modelled). -/
def parseNumString (s : String) : Option Int :=
  match s.data with
  | [] => none
  | '-' :: rest =>
    if rest ≠ [] ∧ rest.all Char.isDigit then
      some (-(Int.ofNat (rest.foldl (fun a c => a * 10 + (c.toNat - 48)) 0)))
    else none
  | l =>
    if l.all Char.isDigit then
      some (Int.ofNat (l.foldl (fun a c => a * 10 + (c.toNat - 48)) 0))
    else none

/-- Model of `pd.to_numeric` on one value: numbers pass through, parsable
strings parse, date-times convert to their integer representation, null
fails. -/
def parseNum : Value → Option Int
  | .n x => some x
  | .s x => parseNumString x
  | .d t => some (Int.ofNat t)
  | .null => none

/-- `pd.to_numeric(col, errors='coerce')` on one value
(`data_normalizer.py` line 50). -/
def coerceNum (v : Value) : Value :=
  match parseNum v with
  | some x => .n x
  | none => .null

/-- `x.str.strip()` on one cell: string cells are stripped, other cells
(nulls included) pass through.  The source applies this to object-dtype
columns only; on homogeneous columns the effect is exactly cellwise, which
is what we model. -/
def stripCell : Value → Value
  | .s x => .s ⟨pyStrip x.data⟩
  | v => v

/-- Row-wise image of `stripCell`. -/
def stripRow (r : List Value) : List Value :=
  r.map stripCell

/-! ## Tables -/

/-- An in-memory table: named columns and positional rows
(the spec's Table, pandas `DataFrame`). -/
structure DataFrame : Type where
  cols : List String
  rows : List (List Value)
  deriving DecidableEq

/-- Well-formed table: every row has one cell per column. -/
def WF (df : DataFrame) : Prop :=
  ∀ r ∈ df.rows, r.length = df.cols.length

/-- Index of the first column with a given name (pandas label lookup). -/
def colIdx : List String → String → Option Nat
  | [], _ => none
  | x :: xs, c => if x = c then some 0 else (colIdx xs c).map (· + 1)

/-- The cell of row `r` under column label `c` (null when absent,
matching reindexing semantics). -/
def cellAt (cols : List String) (r : List Value) (c : String) : Value :=
  match colIdx cols c with
  | some i => r.getD i Value.null
  | none => Value.null

/-- The cell at row index `j`, column position `i`. -/
def getCell (df : DataFrame) (j i : Nat) : Value :=
  (df.rows.getD j []).getD i Value.null

/-! ## Error model -/

/-- Python exceptions surfaced by the embedded code. -/
inductive PyErr : Type where
  | valueError (msg : String)
  | keyError (msg : String)
  | connectionError (msg : String)
  | other (msg : String)
  deriving DecidableEq

/-- Modelled from the spec: the spec's error taxonomy (§7) classifies
unknown-transport-type failures as `ConfigurationError`; the code realizes
that category with the Python `ValueError` raised at the dispatch in
`FTPExtractor.extract`.  The repository defines no `ConfigurationError`
class of its own, so the category is this predicate over raised errors. -/
def isConfigurationError : PyErr → Bool
  | .valueError _ => true
  | _ => false

/-! ## Normalization rules -/

/-- The `DataNormalizer` rule dictionary (`data_normalizer.py`,
constructor docstring): recognized keys with empty defaults. -/
structure Rules : Type where
  required_columns : List String := []
  date_columns : List String := []
  numeric_columns : List String := []
  column_mapping : List (String × String) := []
  default_values : List (String × Value) := []

/-! ## Normalization steps (`DataNormalizer.normalize`) -/

/-- Step 1: standardize column names. -/
def stdStep (df : DataFrame) : DataFrame :=
  ⟨df.cols.map standardizeName, df.rows⟩

/-- Keep-first deduplication by key, with an accumulator of keys already
seen (pandas `drop_duplicates`, default `keep='first'`). -/
def dedupByAux {α β : Type} [DecidableEq β] (key : α → β) :
    List β → List α → List α
  | _, [] => []
  | seen, x :: xs =>
    if key x ∈ seen then dedupByAux key seen xs
    else x :: dedupByAux key (key x :: seen) xs

/-- Keep-first deduplication by key. -/
def dedupBy {α β : Type} [DecidableEq β] (key : α → β) (l : List α) : List α :=
  dedupByAux key [] l

/-- Step 2: `df.drop_duplicates()` — full-row deduplication. -/
def dedupStep (df : DataFrame) : DataFrame :=
  ⟨df.cols, dedupBy (fun r => r) df.rows⟩

/-- Whether a row is null in every column of `subset`. -/
def allNullOn (cols : List String) (subset : List String) (r : List Value) : Bool :=
  subset.all (fun c => decide (cellAt cols r c = Value.null))

/-- `df.dropna(subset=subset, how='all')`: pandas first raises `KeyError`
if any subset label is missing, then drops the rows that are null in every
subset column. -/
def dropnaAll (subset : List String) (df : DataFrame) : Except PyErr DataFrame :=
  if (subset.filter (fun c => decide (c ∉ df.cols))).isEmpty then
    .ok ⟨df.cols, df.rows.filter (fun r => !(allNullOn df.cols subset r))⟩
  else
    .error (.keyError "subset columns not found in DataFrame")

/-- Step 3: `if required_cols: df = df.dropna(subset=required_cols, how='all')`. -/
def requiredStep (required : List String) (df : DataFrame) : Except PyErr DataFrame :=
  if required.isEmpty then .ok df else dropnaAll required df

/-- Apply `f` to the cells of row `r` lying under columns named `name`. -/
def mapRowAt (cols : List String) (name : String) (f : Value → Value) :
    List Value → List Value
  | [] => []
  | v :: vs =>
    match cols with
    | [] => v :: vs
    | c :: cs => (if c = name then f v else v) :: mapRowAt cs name f vs

/-- `df[name] = f(df[name])`: transform one named column in place. -/
def mapColAt (name : String) (f : Value → Value) (df : DataFrame) : DataFrame :=
  ⟨df.cols, df.rows.map (mapRowAt df.cols name f)⟩

/-- Step 4a: `for col in date_columns: if col in df.columns:
df[col] = pd.to_datetime(df[col], errors='coerce')`. -/
def dateStep (ds : List String) (df : DataFrame) : DataFrame :=
  ds.foldl (fun d c => if c ∈ d.cols then mapColAt c coerceDate d else d) df

/-- Step 4b: `for col in numeric_columns: if col in df.columns:
df[col] = pd.to_numeric(df[col], errors='coerce')`. -/
def numStep (ns : List String) (df : DataFrame) : DataFrame :=
  ns.foldl (fun d c => if c ∈ d.cols then mapColAt c coerceNum d else d) df

/-- Step 5: strip whitespace from string cells. -/
def stripStep (df : DataFrame) : DataFrame :=
  ⟨df.cols, df.rows.map stripRow⟩

/-- The column renaming induced by `column_mapping` on one label
(`df.rename(columns=...)` — labels not in the mapping are unchanged). -/
def applyRen (m : List (String × String)) (c : String) : String :=
  match m with
  | [] => c
  | p :: rest => if p.1 = c then p.2 else applyRen rest c

/-- Step 6: `df = df.rename(columns=column_mapping)`. -/
def renameStep (m : List (String × String)) (df : DataFrame) : DataFrame :=
  ⟨df.cols.map (applyRen m), df.rows⟩

/-- `fillna(dv)` on one cell. -/
def fillCell (dv : Value) (v : Value) : Value :=
  if v = Value.null then dv else v

/-- Step 7: `for col, default_val in default_values.items():
if col in df.columns: df[col] = df[col].fillna(default_val)`. -/
def fillStep (defaults : List (String × Value)) (df : DataFrame) : DataFrame :=
  defaults.foldl
    (fun d p => if p.1 ∈ d.cols then mapColAt p.1 (fillCell p.2) d else d) df

/-- Step 8: `df['etl_loaded_at'] = pd.Timestamp.now()` — overwrite the
column when present, append it otherwise; `now` is the injected wall-clock
timestamp (one per `normalize` call). -/
def auditStep (now : Nat) (df : DataFrame) : DataFrame :=
  if "etl_loaded_at" ∈ df.cols then
    mapColAt "etl_loaded_at" (fun _ => Value.d now) df
  else
    ⟨df.cols ++ ["etl_loaded_at"], df.rows.map (fun r => r ++ [Value.d now])⟩

/-- The error-free tail of `normalize` (steps 4–8), applied after the
required-column filter succeeded. -/
def postSteps (rules : Rules) (now : Nat) (df : DataFrame) : DataFrame :=
  auditStep now
    (fillStep rules.default_values
      (renameStep rules.column_mapping
        (stripStep
          (numStep rules.numeric_columns
            (dateStep rules.date_columns df)))))

/-- `DataNormalizer.normalize(df)` with the per-call timestamp made
explicit: standardize names, drop duplicate rows, filter on required
columns (the only step that can raise), then the pure tail. -/
def normalize (rules : Rules) (now : Nat) (df : DataFrame) :
    Except PyErr DataFrame :=
  match requiredStep rules.required_columns (dedupStep (stdStep df)) with
  | .error e => .error e
  | .ok df3 => .ok (postSteps rules now df3)

/-! ## Extractor dispatch (`FTPExtractor.extract`) -/

/-- The fields of one `ftp_servers` entry used by the dispatch. -/
structure ServerCfg : Type where
  name : String := ""
  type : String
  host : String := ""
  port : Nat := 0

/-- A transport-level action observable on the network. -/
inductive NetOp : Type where
  | ftpConnect (host : String) (port : Nat)
  | sftpConnect (host : String) (port : Nat)
  deriving DecidableEq

/-- `FTPExtractor.extract`: dispatch on `self.type`; the transport
branches are network oracles (`ftpNet`, `sftpNet` are the outcomes the
remote servers would produce), and the returned trace lists the connection
attempts made.  An unrecognized type raises
`ValueError("Unsupported server type: ...")` with no connection attempted. -/
def extract (cfg : ServerCfg) (ftpNet sftpNet : Except PyErr DataFrame) :
    List NetOp × Except PyErr DataFrame :=
  if cfg.type = "ftp" then ([.ftpConnect cfg.host cfg.port], ftpNet)
  else if cfg.type = "sftp" then ([.sftpConnect cfg.host cfg.port], sftpNet)
  else ([], .error (.valueError ("Unsupported server type: " ++ cfg.type)))

/-! ## Pipeline controller (`run_etl`) -/

/-- One configured source as the controller sees it: its name, the
outcome of `FTPExtractor(server_cfg).extract()` for this run (an oracle
covering construction, connection, download and CSV parsing), and the
wall-clock timestamp of the `normalize` call made for it. -/
structure SourceRun : Type where
  name : String
  extracted : Except PyErr DataFrame
  now : Nat

/-- The body of one iteration of the per-source loop: extract, then
transform; any raised error escapes to the `except` handler. -/
def processSource (rules : Rules) (s : SourceRun) : Except PyErr DataFrame :=
  match s.extracted with
  | .error e => .error e
  | .ok df => normalize rules s.now df

/-- The per-source loop of `run_etl` (`main.py` lines 59–76): on success
append to `all_dfs`, on any error record the source name and error and
continue with the next source. -/
def collectSources (rules : Rules) : List SourceRun →
    List DataFrame × List (String × PyErr)
  | [] => ([], [])
  | s :: rest =>
    match processSource rules s with
    | .ok df =>
      let p := collectSources rules rest
      (df :: p.1, p.2)
    | .error e =>
      let p := collectSources rules rest
      (p.1, (s.name, e) :: p.2)

/-- Column union in order of first appearance (`pd.concat` alignment). -/
def unionCols (dfs : List DataFrame) : List String :=
  dfs.foldl (fun acc d => acc ++ d.cols.filter (fun c => decide (c ∉ acc))) []

/-- Reindex one row onto the union columns: absent columns become null. -/
def alignRow (allCols cols : List String) (r : List Value) : List Value :=
  allCols.map (fun c => cellAt cols r c)

/-- `pd.concat(all_dfs, ignore_index=True)`: union of columns, rows in
source order, cells aligned by label. -/
def concatDFs (dfs : List DataFrame) : DataFrame :=
  ⟨unionCols dfs,
   (dfs.map (fun d => d.rows.map (alignRow (unionCols dfs) d.cols))).flatten⟩

/-- The dedup key of `main.py` line 82: the `id` cell when the merged
table has an `id` column, the full row otherwise. -/
def idKey (cols : List String) (r : List Value) : List Value :=
  if "id" ∈ cols then [cellAt cols r "id"] else r

/-- `combined_df.drop_duplicates(subset=['id'] if 'id' in combined_df.columns
else None)` — keep-first cross-source deduplication. -/
def crossDedup (df : DataFrame) : DataFrame :=
  ⟨df.cols, dedupBy (idKey df.cols) df.rows⟩

/-- The externally observable outcome of one `run_etl` invocation:
the collected successes and failures, the table passed to `loader.load`
(none when `load` was never invoked), and whether the no-data warning was
logged. -/
structure RunResult : Type where
  successes : List DataFrame
  failures : List (String × PyErr)
  loaded : Option DataFrame
  warning : Bool
  deriving DecidableEq

/-- `run_etl` after the connectivity check (`main.py` lines 59–87),
parametrized by the rule set handed to `DataNormalizer` (the repository
instantiates `mainRules`). -/
def run_etl (rules : Rules) (servers : List SourceRun) : RunResult :=
  let p := collectSources rules servers
  if p.1.isEmpty then
    ⟨p.1, p.2, none, true⟩
  else
    ⟨p.1, p.2, some (crossDedup (concatDFs p.1)), false⟩

/-- The rule set hardcoded in `main.py` lines 49–57. -/
def mainRules : Rules :=
  { required_columns := ["id", "transaction_date"]
    date_columns := ["transaction_date", "created_at"]
    column_mapping :=
      [("transaction_id", "id"), ("trans_date", "transaction_date"),
       ("cust_name", "customer_name")] }

/-! ## Keep-first deduplication: characterization -/

theorem dedupByAux_sublist {α β : Type} [DecidableEq β] (key : α → β)
    (seen : List β) (l : List α) : List.Sublist (dedupByAux key seen l) l := by
  induction l generalizing seen with
  | nil => simp [dedupByAux]
  | cons x xs ih =>
    simp only [dedupByAux]
    split
    · exact List.Sublist.cons x (ih seen)
    · exact List.Sublist.cons₂ x (ih _)

theorem dedupByAux_find {α β : Type} [DecidableEq β] (key : α → β)
    (seen : List β) (l : List α) :
    ∀ x ∈ dedupByAux key seen l, key x ∉ seen ∧
      l.find? (fun y => decide (key y = key x)) = some x := by
  induction l generalizing seen with
  | nil => simp [dedupByAux]
  | cons r rs ih =>
    simp only [dedupByAux]
    split
    case isTrue h =>
      intro x hx
      obtain ⟨h1, h2⟩ := ih seen x hx
      have hne : key r ≠ key x := fun he => h1 (he ▸ h)
      refine ⟨h1, ?_⟩
      rw [List.find?_cons_of_neg _ (by simp [hne]), h2]
    case isFalse h =>
      intro x hx
      rcases List.mem_cons.mp hx with rfl | hx'
      · exact ⟨h, by rw [List.find?_cons_of_pos _ (by simp)]⟩
      · obtain ⟨h1, h2⟩ := ih _ x hx'
        have h1' : key x ∉ seen := fun hs => h1 (List.mem_cons_of_mem _ hs)
        have hne : key x ≠ key r := fun he => h1 (by rw [he]; exact List.mem_cons_self _ _)
        refine ⟨h1', ?_⟩
        rw [List.find?_cons_of_neg _ (by simp [Ne.symm hne]), h2]

theorem dedupByAux_cover {α β : Type} [DecidableEq β] (key : α → β)
    (seen : List β) (l : List α) :
    ∀ x ∈ l, key x ∈ seen ∨ ∃ y ∈ dedupByAux key seen l, key y = key x := by
  induction l generalizing seen with
  | nil => simp
  | cons r rs ih =>
    intro x hx
    simp only [dedupByAux]
    split
    case isTrue h =>
      rcases List.mem_cons.mp hx with rfl | hx'
      · exact Or.inl h
      · exact ih seen x hx'
    case isFalse h =>
      rcases List.mem_cons.mp hx with rfl | hx'
      · exact Or.inr ⟨x, List.mem_cons_self _ _, rfl⟩
      · rcases ih (key r :: seen) x hx' with hs | ⟨y, hy, hk⟩
        · rcases List.mem_cons.mp hs with he | hs'
          · exact Or.inr ⟨r, List.mem_cons_self _ _, he.symm⟩
          · exact Or.inl hs'
        · exact Or.inr ⟨y, List.mem_cons_of_mem _ hy, hk⟩

theorem dedupByAux_pairwise {α β : Type} [DecidableEq β] (key : α → β)
    (seen : List β) (l : List α) :
    (dedupByAux key seen l).Pairwise (fun a b => key a ≠ key b) := by
  induction l generalizing seen with
  | nil => simp [dedupByAux]
  | cons r rs ih =>
    simp only [dedupByAux]
    split
    · exact ih seen
    · refine List.Pairwise.cons ?_ (ih _)
      intro b hb
      have hmem := (dedupByAux_find key _ rs b hb).1
      exact fun he => hmem (by rw [← he]; exact List.mem_cons_self _ _)

/-- Claim C4: for every merged table, the controller's cross-source
deduplication keys on the `id` cell when an `id` column exists and on the
full row otherwise, keeping for each key exactly the first row in merge
order and dropping every later row with the same key: the surviving rows
form a sublist of the merged rows, each survivor is the first row bearing
its key, every key of the merged table is still represented, and no two
survivors share a key. -/
theorem c4_cross_dedup (df : DataFrame) :
    (crossDedup df).cols = df.cols ∧
    List.Sublist (crossDedup df).rows df.rows ∧
    (∀ r ∈ (crossDedup df).rows,
      df.rows.find? (fun y => decide (idKey df.cols y = idKey df.cols r)) = some r) ∧
    (∀ r ∈ df.rows, ∃ r2 ∈ (crossDedup df).rows, idKey df.cols r2 = idKey df.cols r) ∧
    ((crossDedup df).rows.Pairwise (fun a b => idKey df.cols a ≠ idKey df.cols b)) ∧
    ("id" ∈ df.cols → ∀ r, idKey df.cols r = [cellAt df.cols r "id"]) ∧
    ("id" ∉ df.cols → ∀ r, idKey df.cols r = r) := by
  refine ⟨rfl, dedupByAux_sublist _ _ _, ?_, ?_, dedupByAux_pairwise _ _ _, ?_, ?_⟩
  · intro r hr
    exact (dedupByAux_find (idKey df.cols) [] df.rows r hr).2
  · intro r hr
    rcases dedupByAux_cover (idKey df.cols) [] df.rows r hr with h | h
    · simp at h
    · exact h
  · intro h r; simp [idKey, h]
  · intro h r; simp [idKey, h]

/-- Witness for C4 at concrete tables, one with an `id` column and a
duplicated `id` value, one without an `id` column. -/
theorem c4_witness :
    ((⟨["id"], [[Value.n 1], [Value.n 1], [Value.n 2]]⟩ : DataFrame)).rows.find?
      (fun y => decide (idKey ["id"] y = idKey ["id"] [Value.n 1])) = some [Value.n 1] ∧
    idKey ["id"] [Value.n 1] = [cellAt ["id"] [Value.n 1] "id"] ∧
    idKey ["x"] [Value.n 1] = [Value.n 1] := by
  refine ⟨?_, ?_, ?_⟩
  · exact (c4_cross_dedup ⟨["id"], [[Value.n 1], [Value.n 1], [Value.n 2]]⟩).2.2.1
      [Value.n 1] (by decide)
  · exact (c4_cross_dedup ⟨["id"], [[Value.n 1], [Value.n 1], [Value.n 2]]⟩).2.2.2.2.2.1
      (by decide) [Value.n 1]
  · exact (c4_cross_dedup ⟨["x"], [[Value.n 1]]⟩).2.2.2.2.2.2 (by decide) [Value.n 1]

/-! ## Controller: per-source loop, merge, degraded outcome -/

theorem collectSources_eq (rules : Rules) (servers : List SourceRun) :
    collectSources rules servers =
      (servers.filterMap (fun s => (processSource rules s).toOption),
       servers.filterMap (fun s =>
         match processSource rules s with
         | .error e => some (s.name, e)
         | .ok _ => none)) := by
  induction servers with
  | nil => rfl
  | cons s rest ih =>
    simp only [collectSources, List.filterMap_cons]
    cases h : processSource rules s <;> simp [h, ih, Except.toOption]

theorem run_etl_successes (rules : Rules) (servers : List SourceRun) :
    (run_etl rules servers).successes = (collectSources rules servers).1 := by
  simp only [run_etl]
  split <;> rfl

theorem run_etl_failures (rules : Rules) (servers : List SourceRun) :
    (run_etl rules servers).failures = (collectSources rules servers).2 := by
  simp only [run_etl]
  split <;> rfl

theorem run_etl_loaded (rules : Rules) (servers : List SourceRun) :
    (run_etl rules servers).loaded =
      if (collectSources rules servers).1.isEmpty then none
      else some (crossDedup (concatDFs (collectSources rules servers).1)) := by
  simp only [run_etl]
  split
  case isTrue h => simp [h]
  case isFalse h => simp [h]

theorem concat_rows_mem (dfs : List DataFrame) (r : List Value)
    (hr : r ∈ (concatDFs dfs).rows) :
    ∃ d ∈ dfs, ∃ r0 ∈ d.rows, r = alignRow (unionCols dfs) d.cols r0 := by
  simp only [concatDFs] at hr
  rcases List.mem_flatten.mp hr with ⟨l, hl, hrl⟩
  rcases List.mem_map.mp hl with ⟨d, hd, rfl⟩
  rcases List.mem_map.mp hrl with ⟨r0, hr0, rfl⟩
  exact ⟨d, hd, r0, hr0, rfl⟩

theorem concat_rows_mem_of (dfs : List DataFrame) (d : DataFrame) (r0 : List Value)
    (hd : d ∈ dfs) (hr0 : r0 ∈ d.rows) :
    alignRow (unionCols dfs) d.cols r0 ∈ (concatDFs dfs).rows := by
  simp only [concatDFs]
  exact List.mem_flatten.mpr
    ⟨_, List.mem_map.mpr ⟨d, hd, rfl⟩, List.mem_map.mpr ⟨r0, hr0, rfl⟩⟩

/-- Claim C1: every run completes with the per-source loop isolating
failures: the success list collects exactly the tables of the sources
whose extraction and normalization both succeeded (in configured order),
the failure list records exactly the name and error of every failed
source, the loaded table is the cross-deduplicated merge of the
successes, every loaded row is an aligned row of some successful source's
table, and every row of every successful table appears in the merged
table. -/
theorem c1_run_isolation (rules : Rules) (servers : List SourceRun) :
    (run_etl rules servers).successes =
      servers.filterMap (fun s => (processSource rules s).toOption) ∧
    (run_etl rules servers).failures =
      servers.filterMap (fun s =>
        match processSource rules s with
        | .error e => some (s.name, e)
        | .ok _ => none) ∧
    (∀ d, (run_etl rules servers).loaded = some d →
      d = crossDedup (concatDFs (run_etl rules servers).successes)) ∧
    (∀ d, (run_etl rules servers).loaded = some d → ∀ r ∈ d.rows,
      ∃ sdf ∈ (run_etl rules servers).successes, ∃ r0 ∈ sdf.rows,
        r = alignRow (unionCols (run_etl rules servers).successes) sdf.cols r0) ∧
    (∀ sdf ∈ (run_etl rules servers).successes, ∀ r0 ∈ sdf.rows,
      alignRow (unionCols (run_etl rules servers).successes) sdf.cols r0 ∈
        (concatDFs (run_etl rules servers).successes).rows) := by
  refine ⟨?_, ?_, ?_, ?_, ?_⟩
  · rw [run_etl_successes, collectSources_eq]
  · rw [run_etl_failures, collectSources_eq]
  · intro d hd
    rw [run_etl_loaded] at hd
    rw [run_etl_successes]
    by_cases h : (collectSources rules servers).1.isEmpty
    · simp [h] at hd
    · simp only [h, if_false] at hd
      exact (Option.some_injective _ hd).symm
  · intro d hd r hr
    rw [run_etl_loaded] at hd
    rw [run_etl_successes]
    by_cases h : (collectSources rules servers).1.isEmpty
    · simp [h] at hd
    · simp only [h, if_false] at hd
      have hd' := (Option.some_injective _ hd).symm
      subst hd'
      have hr' : r ∈ (concatDFs (collectSources rules servers).1).rows :=
        (dedupByAux_sublist _ _ _).subset hr
      exact concat_rows_mem _ r hr'
  · intro sdf hs r0 hr0
    rw [run_etl_successes] at hs ⊢
    exact concat_rows_mem_of _ sdf r0 hs hr0

/-- Witness for C1 at a concrete run of three sources where the second
fails with a connection error: the run records one named failure and the
loaded table holds only rows of the two successes. -/
theorem c1_witness :
    (run_etl {} [⟨"a", .ok ⟨["u"], [[Value.n 1]]⟩, 0⟩,
                 ⟨"b", .error (.connectionError "refused"), 0⟩,
                 ⟨"c", .ok ⟨["u"], [[Value.n 2]]⟩, 0⟩]).failures =
      [("b", .connectionError "refused")] ∧
    ∃ sdf ∈ (run_etl {} [⟨"a", .ok ⟨["u"], [[Value.n 1]]⟩, 0⟩,
                 ⟨"b", .error (.connectionError "refused"), 0⟩,
                 ⟨"c", .ok ⟨["u"], [[Value.n 2]]⟩, 0⟩]).successes,
      ∃ r0 ∈ sdf.rows,
        [Value.n 1, Value.d 0] =
          alignRow (unionCols (run_etl {} [⟨"a", .ok ⟨["u"], [[Value.n 1]]⟩, 0⟩,
                 ⟨"b", .error (.connectionError "refused"), 0⟩,
                 ⟨"c", .ok ⟨["u"], [[Value.n 2]]⟩, 0⟩]).successes) sdf.cols r0 := by
  constructor
  · rw [(c1_run_isolation {} _).2.1]
    rfl
  · exact (c1_run_isolation {} _).2.2.2.1 _ (by rfl) [Value.n 1, Value.d 0] (by decide)

/-- Claim C3: when no configured source yields a successfully normalized
table the run still completes: the sink's `load` is never invoked
(`loaded = none`), the no-data warning is logged, and the outcome is the
non-fatal degraded result. -/
theorem c3_degraded (rules : Rules) (servers : List SourceRun)
    (hall : ∀ s ∈ servers, ∃ e, processSource rules s = .error e) :
    (run_etl rules servers).successes = [] ∧
    (run_etl rules servers).loaded = none ∧
    (run_etl rules servers).warning = true := by
  have hs : (collectSources rules servers).1 = [] := by
    rw [collectSources_eq]
    refine List.filterMap_eq_nil_iff.mpr ?_
    intro s hmem
    obtain ⟨e, he⟩ := hall s hmem
    simp [he, Except.toOption]
  refine ⟨?_, ?_, ?_⟩
  · rw [run_etl_successes, hs]
  · rw [run_etl_loaded, hs]
    rfl
  · simp only [run_etl]
    split
    · rfl
    case isFalse h => exact absurd (by rw [hs]; rfl) h

/-- Witness for C3: a run whose single source fails extraction. -/
theorem c3_witness :
    (run_etl {} [⟨"s1", .error (.connectionError "refused"), 0⟩]).loaded = none ∧
    (run_etl {} [⟨"s1", .error (.connectionError "refused"), 0⟩]).warning = true := by
  have h := c3_degraded {} [⟨"s1", .error (.connectionError "refused"), 0⟩] ?_
  · exact ⟨h.2.1, h.2.2⟩
  · intro s hmem
    rw [List.mem_singleton] at hmem
    subst hmem
    exact ⟨.connectionError "refused", rfl⟩

/-! ## Extractor dispatch -/

/-- Claim C8: for every source whose transport type is neither `ftp` nor
`sftp`, `extract` fails with the error the spec's taxonomy classifies as a
`ConfigurationError` (realized as `ValueError` in the code), and the
connection trace is empty, so the failure occurs before any network
attempt. -/
theorem c8_unknown_type (cfg : ServerCfg) (ftpNet sftpNet : Except PyErr DataFrame)
    (h1 : cfg.type ≠ "ftp") (h2 : cfg.type ≠ "sftp") :
    (extract cfg ftpNet sftpNet).1 = [] ∧
    ∃ e, (extract cfg ftpNet sftpNet).2 = .error e ∧
      isConfigurationError e = true := by
  refine ⟨by simp [extract, h1, h2], ?_⟩
  exact ⟨.valueError ("Unsupported server type: " ++ cfg.type),
    by simp [extract, h1, h2], rfl⟩

/-- Witness for C8 at a concrete descriptor of type `http`. -/
theorem c8_witness :
    (extract ⟨"s", "http", "h", 21⟩ (.error (.other "x")) (.error (.other "x"))).1 = [] ∧
    ∃ e, (extract ⟨"s", "http", "h", 21⟩ (.error (.other "x")) (.error (.other "x"))).2 =
      .error e ∧ isConfigurationError e = true :=
  c8_unknown_type ⟨"s", "http", "h", 21⟩ _ _ (by decide) (by decide)

/-! ## Normalizer: column bookkeeping and the required-column filter -/

theorem colfold_filter (f : Value → Value) (ds : List String) (d : DataFrame) :
    (ds.filter (fun c => decide (c ∈ d.cols))).foldl
      (fun d c => if c ∈ d.cols then mapColAt c f d else d) d =
    ds.foldl (fun d c => if c ∈ d.cols then mapColAt c f d else d) d := by
  induction ds generalizing d with
  | nil => rfl
  | cons c cs ih =>
    by_cases h : c ∈ d.cols
    · rw [List.filter_cons, if_pos (show decide (c ∈ d.cols) = true by simpa using h)]
      rw [List.foldl_cons, List.foldl_cons, if_pos h]
      exact ih (mapColAt c f d)
    · rw [List.filter_cons,
        if_neg (show ¬(decide (c ∈ d.cols) = true) by simpa using h)]
      rw [List.foldl_cons, if_neg h]
      exact ih d

theorem dateStep_cols (ds : List String) (d : DataFrame) :
    (dateStep ds d).cols = d.cols := by
  induction ds generalizing d with
  | nil => rfl
  | cons c cs ih =>
    simp only [dateStep, List.foldl_cons]
    split <;> exact ih _

theorem numStep_cols (ns : List String) (d : DataFrame) :
    (numStep ns d).cols = d.cols := by
  induction ns generalizing d with
  | nil => rfl
  | cons c cs ih =>
    simp only [numStep, List.foldl_cons]
    split <;> exact ih _

theorem fillStep_cols (defaults : List (String × Value)) (d : DataFrame) :
    (fillStep defaults d).cols = d.cols := by
  induction defaults generalizing d with
  | nil => rfl
  | cons p ps ih =>
    simp only [fillStep, List.foldl_cons]
    split <;> exact ih _

theorem requiredStep_ok_cols (req : List String) (d d3 : DataFrame)
    (h : requiredStep req d = .ok d3) : d3.cols = d.cols := by
  simp only [requiredStep] at h
  split at h
  · cases h; rfl
  · simp only [dropnaAll] at h
    split at h
    · cases h; rfl
    · cases h

theorem requiredStep_ok_rows (req : List String) (d d3 : DataFrame)
    (h : requiredStep req d = .ok d3) : List.Sublist d3.rows d.rows := by
  simp only [requiredStep] at h
  split at h
  · cases h; exact List.Sublist.refl _
  · simp only [dropnaAll] at h
    split at h
    · cases h; exact List.filter_sublist _
    · cases h

theorem normalize_of_requiredStep (rules : Rules) (now : Nat) (df df3 : DataFrame)
    (h : requiredStep rules.required_columns (dedupStep (stdStep df)) = .ok df3) :
    normalize rules now df = .ok (postSteps rules now df3) := by
  simp only [normalize, h]

theorem normalize_error_iff (rules : Rules) (now : Nat) (df : DataFrame) :
    (∃ e, normalize rules now df = .error e) ↔
      (rules.required_columns ≠ [] ∧
        ∃ c ∈ rules.required_columns, c ∉ (stdStep df).cols) := by
  constructor
  · rintro ⟨e, he⟩
    simp only [normalize] at he
    cases h : requiredStep rules.required_columns (dedupStep (stdStep df)) with
    | ok d3 => rw [h] at he; cases he
    | error e' =>
      simp only [requiredStep] at h
      split at h
      case isTrue => cases h
      case isFalse hne =>
        have hneq : rules.required_columns ≠ [] := by
          intro hnil
          rw [hnil] at hne
          exact hne rfl
        simp only [dropnaAll] at h
        split at h
        case isTrue => cases h
        case isFalse hfil =>
          refine ⟨hneq, ?_⟩
          have hex : ¬(rules.required_columns.filter
              (fun c => decide (c ∉ (dedupStep (stdStep df)).cols)) = []) := by
            intro hn
            rw [hn] at hfil
            exact hfil rfl
          rw [List.filter_eq_nil_iff] at hex
          push_neg at hex
          obtain ⟨c, hc, hdec⟩ := hex
          exact ⟨c, hc, of_decide_eq_true hdec⟩
  · rintro ⟨hne, c, hc, hnotin⟩
    have hemp : ¬(rules.required_columns.isEmpty = true) := by
      simp [List.isEmpty_iff, hne]
    have hfil : ¬((rules.required_columns.filter
        (fun c => decide (c ∉ (dedupStep (stdStep df)).cols))).isEmpty = true) := by
      rw [List.isEmpty_iff]
      intro hn
      rw [List.filter_eq_nil_iff] at hn
      exact hn c hc (by simpa using hnotin)
    refine ⟨.keyError "subset columns not found in DataFrame", ?_⟩
    simp only [normalize, requiredStep, if_neg hemp, dropnaAll, if_neg hfil]

/-- Claim C9: when `required_columns` is non-empty and names a column
absent from the standardized table, `normalize` raises (and those are the
only raising runs), whereas `date_columns` and `numeric_columns` entries
absent from the table are silently skipped: filtering them away from the
rule list leaves the date and numeric conversion steps unchanged. -/
theorem c9_required_vs_skipped (rules : Rules) (now : Nat) (df : DataFrame)
    (ds ns : List String) (d : DataFrame) :
    ((∃ e, normalize rules now df = .error e) ↔
      (rules.required_columns ≠ [] ∧
        ∃ c ∈ rules.required_columns, c ∉ (stdStep df).cols)) ∧
    dateStep (ds.filter (fun c => decide (c ∈ d.cols))) d = dateStep ds d ∧
    numStep (ns.filter (fun c => decide (c ∈ d.cols))) d = numStep ns d :=
  ⟨normalize_error_iff rules now df,
   colfold_filter coerceDate ds d,
   colfold_filter coerceNum ns d⟩

/-- Witness for C9: a rule set requiring the absent column `id` makes
`normalize` raise on a one-column table. -/
theorem c9_witness :
    ∃ e, normalize { required_columns := ["id"] } 0
      ⟨["x"], [[Value.s "v"]]⟩ = .error e :=
  (c9_required_vs_skipped { required_columns := ["id"] } 0
    ⟨["x"], [[Value.s "v"]]⟩ [] [] ⟨[], []⟩).1.mpr
    ⟨by decide, "id", by decide, by decide⟩

/-- Claim C5: with a non-empty `required_columns` whose names are all
present after standardization, the required-column filter inside
`normalize` drops a row iff the row is null in every listed column: rows
null across the whole set are absent from the filtered table, rows with
at least one non-null required value are retained, and `normalize`
proceeds to the remaining steps on exactly the retained rows. -/
theorem c5_required_filter (rules : Rules) (now : Nat) (df : DataFrame)
    (hne : rules.required_columns ≠ [])
    (hsub : ∀ c ∈ rules.required_columns, c ∈ (stdStep df).cols) :
    ∃ df3, requiredStep rules.required_columns (dedupStep (stdStep df)) = .ok df3 ∧
      normalize rules now df = .ok (postSteps rules now df3) ∧
      ∀ r ∈ (dedupStep (stdStep df)).rows,
        ((∀ c ∈ rules.required_columns, cellAt (stdStep df).cols r c = Value.null) →
          r ∉ df3.rows) ∧
        ((∃ c ∈ rules.required_columns, cellAt (stdStep df).cols r c ≠ Value.null) →
          r ∈ df3.rows) := by
  have hemp : ¬(rules.required_columns.isEmpty = true) := by
    simp [List.isEmpty_iff, hne]
  have hfil : (rules.required_columns.filter
      (fun c => decide (c ∉ (dedupStep (stdStep df)).cols))).isEmpty = true := by
    rw [List.isEmpty_iff, List.filter_eq_nil_iff]
    intro c hc
    simpa using hsub c hc
  have hstep : requiredStep rules.required_columns (dedupStep (stdStep df)) =
      .ok ⟨(dedupStep (stdStep df)).cols,
        (dedupStep (stdStep df)).rows.filter
          (fun r => !(allNullOn (dedupStep (stdStep df)).cols
            rules.required_columns r))⟩ := by
    simp only [requiredStep, if_neg hemp, dropnaAll, if_pos hfil]
  refine ⟨_, hstep, normalize_of_requiredStep rules now df _ hstep, ?_⟩
  intro r hr
  have hcols : (dedupStep (stdStep df)).cols = (stdStep df).cols := rfl
  constructor
  · intro hall hmem
    have hfalse : allNullOn (dedupStep (stdStep df)).cols
        rules.required_columns r = false := by
      simpa using (List.mem_filter.mp hmem).2
    have htrue : allNullOn (dedupStep (stdStep df)).cols
        rules.required_columns r = true := by
      simp only [allNullOn, List.all_eq_true, decide_eq_true_eq]
      intro c hc
      exact hall c hc
    rw [htrue] at hfalse
    cases hfalse
  · rintro ⟨c, hc, hnn⟩
    refine List.mem_filter.mpr ⟨hr, ?_⟩
    rw [Bool.not_eq_true']
    refine Bool.eq_false_iff.mpr ?_
    intro htrue
    simp only [allNullOn, List.all_eq_true, decide_eq_true_eq] at htrue
    exact hnn (htrue c hc)

/-- Witness for C5 on a two-row table: the all-null row is dropped, the
row with a non-null required value is kept. -/
theorem c5_witness :
    ∃ df3, requiredStep ["a"]
        (dedupStep (stdStep ⟨["a"], [[Value.null], [Value.s "v"]]⟩)) = .ok df3 ∧
      [Value.null] ∉ df3.rows ∧ [Value.s "v"] ∈ df3.rows := by
  obtain ⟨df3, h1, _h2, h3⟩ := c5_required_filter { required_columns := ["a"] } 0
    ⟨["a"], [[Value.null], [Value.s "v"]]⟩ (by decide) (by decide)
  refine ⟨df3, h1, ?_, ?_⟩
  · exact (h3 [Value.null] (by decide)).1 (by decide)
  · exact (h3 [Value.s "v"] (by decide)).2 ⟨"a", by decide, by decide⟩

/-! ## Clean column names (Claim C2) -/

/-- The claim's property of one column name: lower-case (no ASCII
upper-case letter), no space character, and no leading or trailing
whitespace. -/
def cleanNameB (s : String) : Bool :=
  s.data.all (fun c => !(isUpperAscii c) && !(decide (c = ' '))) &&
  (match s.data.head? with
   | some c => !(pyIsSpace c)
   | none => true) &&
  (match s.data.getLast? with
   | some c => !(pyIsSpace c)
   | none => true)

theorem isUpperAscii_pyLowerChar (c : Char) :
    isUpperAscii (pyLowerChar c) = false := by
  unfold pyLowerChar isUpperAscii
  split
  case isTrue h =>
    obtain ⟨h1, h2⟩ := h
    generalize c.toNat = n at h1 h2 ⊢
    interval_cases n <;> decide
  case isFalse h => exact decide_eq_false h

theorem spaceToUnderscore_ne_space (c : Char) : spaceToUnderscore c ≠ ' ' := by
  unfold spaceToUnderscore
  split
  · decide
  · assumption

theorem isUpperAscii_spaceToUnderscore (c : Char)
    (h : isUpperAscii c = false) : isUpperAscii (spaceToUnderscore c) = false := by
  unfold spaceToUnderscore
  split
  · decide
  · exact h

theorem pyIsSpace_pyLowerChar (c : Char) (h : pyIsSpace c = false) :
    pyIsSpace (pyLowerChar c) = false := by
  unfold pyLowerChar
  split
  case isTrue hb =>
    obtain ⟨h1, h2⟩ := hb
    generalize c.toNat = n at h1 h2 ⊢
    interval_cases n <;> decide
  case isFalse => exact h

theorem pyIsSpace_spaceToUnderscore (c : Char) (h : pyIsSpace c = false) :
    pyIsSpace (spaceToUnderscore c) = false := by
  unfold spaceToUnderscore
  split
  · decide
  · exact h

theorem head?_dropWhile_false {α : Type} (p : α → Bool) (l : List α) (c : α)
    (h : (l.dropWhile p).head? = some c) : p c = false := by
  induction l with
  | nil => simp [List.dropWhile] at h
  | cons x xs ih =>
    rw [List.dropWhile_cons] at h
    split at h
    · exact ih h
    case isFalse hx =>
      rw [List.head?_cons, Option.some.injEq] at h
      rw [← h]
      simpa using hx

theorem getLast?_dropWhile {α : Type} (p : α → Bool) (l : List α)
    (h : l.dropWhile p ≠ []) : (l.dropWhile p).getLast? = l.getLast? := by
  induction l with
  | nil => simp at h
  | cons x xs ih =>
    rw [List.dropWhile_cons] at h ⊢
    split at h
    case isTrue hx =>
      rw [if_pos hx, ih h]
      have hxs : xs ≠ [] := by
        intro he
        rw [he] at h
        simp at h
      obtain ⟨y, ys, rfl⟩ := List.exists_cons_of_ne_nil hxs
      rw [List.getLast?_cons_cons]
    case isFalse hx =>
      rw [if_neg hx]

theorem pyStrip_head (l : List Char) (c : Char)
    (h : (pyStrip l).head? = some c) : pyIsSpace c = false := by
  unfold pyStrip at h
  rw [List.head?_reverse] at h
  have hne : (l.dropWhile pyIsSpace).reverse.dropWhile pyIsSpace ≠ [] := by
    intro he
    rw [he] at h
    cases h
  rw [getLast?_dropWhile _ _ hne, List.getLast?_reverse] at h
  exact head?_dropWhile_false _ _ _ h

theorem pyStrip_getLast (l : List Char) (c : Char)
    (h : (pyStrip l).getLast? = some c) : pyIsSpace c = false := by
  unfold pyStrip at h
  rw [List.getLast?_reverse] at h
  exact head?_dropWhile_false _ _ _ h

theorem cleanNameB_standardizeName (s : String) :
    cleanNameB (standardizeName s) = true := by
  unfold cleanNameB standardizeName
  rw [Bool.and_eq_true, Bool.and_eq_true]
  refine ⟨⟨?_, ?_⟩, ?_⟩
  · rw [List.all_eq_true]
    intro c hc
    rcases List.mem_map.mp hc with ⟨c1, hc1, rfl⟩
    rw [Bool.and_eq_true, Bool.not_eq_true', Bool.not_eq_true']
    rcases List.mem_map.mp hc1 with ⟨c0, _, rfl⟩
    exact ⟨isUpperAscii_spaceToUnderscore _ (isUpperAscii_pyLowerChar c0),
      decide_eq_false (spaceToUnderscore_ne_space _)⟩
  · rw [List.head?_map, List.head?_map]
    cases h : (pyStrip s.data).head? with
    | none => rfl
    | some c0 =>
      have h0 := pyStrip_head _ _ h
      simp only [Option.map_some']
      rw [Bool.not_eq_true']
      exact pyIsSpace_spaceToUnderscore _ (pyIsSpace_pyLowerChar _ h0)
  · rw [List.getLast?_map, List.getLast?_map]
    cases h : (pyStrip s.data).getLast? with
    | none => rfl
    | some c0 =>
      have h0 := pyStrip_getLast _ _ h
      simp only [Option.map_some']
      rw [Bool.not_eq_true']
      exact pyIsSpace_spaceToUnderscore _ (pyIsSpace_pyLowerChar _ h0)

theorem applyRen_cases (m : List (String × String)) (c : String) :
    applyRen m c = c ∨ ∃ p ∈ m, applyRen m c = p.2 := by
  induction m with
  | nil => exact Or.inl rfl
  | cons p ps ih =>
    simp only [applyRen]
    split
    · exact Or.inr ⟨p, List.mem_cons_self _ _, rfl⟩
    · rcases ih with h | ⟨q, hq, he⟩
      · exact Or.inl h
      · exact Or.inr ⟨q, List.mem_cons_of_mem _ hq, he⟩

theorem postSteps_cols (rules : Rules) (now : Nat) (d : DataFrame) :
    (postSteps rules now d).cols =
      (if "etl_loaded_at" ∈ d.cols.map (applyRen rules.column_mapping)
       then d.cols.map (applyRen rules.column_mapping)
       else d.cols.map (applyRen rules.column_mapping) ++ ["etl_loaded_at"]) := by
  have h1 : (fillStep rules.default_values (renameStep rules.column_mapping
      (stripStep (numStep rules.numeric_columns
        (dateStep rules.date_columns d))))).cols =
      d.cols.map (applyRen rules.column_mapping) := by
    rw [fillStep_cols]
    show ((stripStep (numStep rules.numeric_columns
      (dateStep rules.date_columns d))).cols.map (applyRen rules.column_mapping)) = _
    show ((numStep rules.numeric_columns
      (dateStep rules.date_columns d)).cols.map (applyRen rules.column_mapping)) = _
    rw [numStep_cols, dateStep_cols]
  simp only [postSteps, auditStep]
  rw [h1]
  split
  · exact h1
  · rfl

theorem normalize_ok_cols_mem (rules : Rules) (now : Nat) (df d : DataFrame)
    (h : normalize rules now df = .ok d) :
    ∀ c ∈ d.cols,
      c ∈ (df.cols.map standardizeName).map (applyRen rules.column_mapping) ∨
      c = "etl_loaded_at" := by
  simp only [normalize] at h
  cases hstep : requiredStep rules.required_columns (dedupStep (stdStep df)) with
  | error e => rw [hstep] at h; cases h
  | ok df3 =>
    rw [hstep] at h
    cases h
    intro c hc
    rw [postSteps_cols] at hc
    have hc3 : df3.cols = df.cols.map standardizeName :=
      requiredStep_ok_cols _ _ _ hstep
    rw [hc3] at hc
    split at hc
    · exact Or.inl hc
    · rcases List.mem_append.mp hc with h1 | h2
      · exact Or.inl h1
      · exact Or.inr (List.mem_singleton.mp h2)

/-- Counterexample to Claim C2 as stated: with the rule set
`column_mapping = [("a", "B C")]` on a table with column `a`, `normalize`
succeeds and its output contains the column name `B C`, which is neither
lower-case nor free of spaces — renaming reintroduces arbitrary names
after standardization. -/
theorem c2_counterexample :
    ∃ d, normalize { column_mapping := [("a", "B C")] } 0 ⟨["a"], []⟩ =
        .ok d ∧ ∃ c ∈ d.cols, cleanNameB c = false := by
  exact ⟨⟨["B C", "etl_loaded_at"], []⟩, rfl, "B C", by decide, by decide⟩

/-- Claim C2 (amended): for every input table and every rule set whose
`column_mapping` target names are themselves standardized (lower-case,
trimmed, space-free), every column name of the table `normalize` returns
is lower-case, has no leading or trailing whitespace, and contains no
space character. -/
theorem c2_clean_columns (rules : Rules) (now : Nat) (df d : DataFrame)
    (htargets : ∀ p ∈ rules.column_mapping, cleanNameB p.2 = true)
    (h : normalize rules now df = .ok d) :
    ∀ c ∈ d.cols, cleanNameB c = true := by
  intro c hc
  rcases normalize_ok_cols_mem rules now df d h c hc with hL | rfl
  · rcases List.mem_map.mp hL with ⟨c1, hc1, rfl⟩
    rcases List.mem_map.mp hc1 with ⟨c0, _, rfl⟩
    rcases applyRen_cases rules.column_mapping (standardizeName c0) with he | ⟨p, hp, he⟩
    · rw [he]
      exact cleanNameB_standardizeName c0
    · rw [he]
      exact htargets p hp
  · decide

/-- Witness for C2 (amended) on a concrete table and rule set: both
output column names are clean. -/
theorem c2_witness :
    cleanNameB "a_b" = true ∧ cleanNameB "etl_loaded_at" = true := by
  have h := c2_clean_columns { column_mapping := [("a", "b")] } 0 ⟨[" A B "], []⟩
    ⟨["a_b", "etl_loaded_at"], []⟩ (by decide) rfl
  exact ⟨h "a_b" (by decide), h "etl_loaded_at" (by decide)⟩

/-! ## Column renaming (Claim C7) -/

theorem getD_map_lt {α β : Type} (f : α → β) (l : List α) (i : Nat)
    (hi : i < l.length) (d : α) (d2 : β) :
    (l.map f).getD i d2 = f (l.getD i d) := by
  induction l generalizing i with
  | nil => simp at hi
  | cons x xs ih =>
    cases i with
    | zero => rfl
    | succ n =>
      simp only [List.map_cons, List.getD_cons_succ]
      exact ih n (by simpa using hi)

theorem applyRen_eq_of_mem (m : List (String × String)) (s t : String)
    (hnd : (m.map Prod.fst).Nodup) (hmem : (s, t) ∈ m) : applyRen m s = t := by
  induction m with
  | nil => cases hmem
  | cons p ps ih =>
    rcases List.mem_cons.mp hmem with rfl | hmem'
    · simp [applyRen]
    · have hkey : s ∈ ps.map Prod.fst :=
        List.mem_map.mpr ⟨(s, t), hmem', rfl⟩
      have hp1 : p.1 ≠ s := by
        intro he
        exact (List.nodup_cons.mp hnd).1 (he ▸ hkey)
      simp only [applyRen, if_neg hp1]
      exact ih (List.nodup_cons.mp hnd).2 hmem'

theorem applyRen_filter_ne (m : List (String × String)) (s c : String)
    (hcs : c ≠ s) :
    applyRen (m.filter (fun q => decide (¬(q.1 = s)))) c = applyRen m c := by
  induction m with
  | nil => rfl
  | cons p ps ih =>
    by_cases hp : p.1 = s
    · rw [List.filter_cons, if_neg (by simp [hp])]
      have hpc : p.1 ≠ c := fun he => hcs ((he ▸ hp : c = s))
      simp only [applyRen, if_neg hpc]
      exact ih
    · rw [List.filter_cons, if_pos (by simpa using hp)]
      simp only [applyRen]
      split
      · rfl
      · exact ih

/-- Counterexample to Claim C7 as stated: the mapping entry
`("a", "a")` has its source name `a` present in the table, yet the output
of `normalize` still has a column named `a` (the entry's own target), so
"the output has no column under the source name" fails. -/
theorem c7_counterexample :
    ∃ d, normalize { column_mapping := [("a", "a")] } 0 ⟨["a"], []⟩ = .ok d ∧
      "a" ∈ d.cols :=
  ⟨⟨["a", "etl_loaded_at"], []⟩, rfl, by decide⟩

/-- Claim C7 (amended): renaming maps every column label through
`column_mapping` in place.  For an entry `(s, t)` of a mapping with
distinct source names: the rename step never touches cell values; a
column positioned at `s` is named `t` afterwards (so `t` carries `s`'s
original values); the output has no column named `s` provided no table
column (including `s` itself, via an entry `s ↦ s`) is carried onto the
name `s`; an entry whose source name is absent from the table can be
deleted without changing the result (ignored, no error); and under the
same proviso the final output of `normalize` has no column named `s`
unless `s` is the audit column name. -/
theorem c7_rename (m : List (String × String)) (d : DataFrame) (s t : String)
    (hnd : (m.map Prod.fst).Nodup) (hmem : (s, t) ∈ m) :
    ((renameStep m d).rows = d.rows) ∧
    (∀ i, i < d.cols.length → d.cols.getD i "" = s →
      (renameStep m d).cols.getD i "" = t) ∧
    ((∀ c ∈ d.cols, applyRen m c ≠ s) → s ∉ (renameStep m d).cols) ∧
    (s ∉ d.cols →
      renameStep (m.filter (fun q => decide (¬(q.1 = s)))) d = renameStep m d) ∧
    (∀ rules now df dout, rules.column_mapping = m →
      normalize rules now df = .ok dout →
      (∀ c ∈ df.cols, applyRen m (standardizeName c) ≠ s) →
      s ≠ "etl_loaded_at" → s ∉ dout.cols) := by
  refine ⟨rfl, ?_, ?_, ?_, ?_⟩
  · intro i hi hs
    show (d.cols.map (applyRen m)).getD i "" = t
    rw [getD_map_lt (applyRen m) d.cols i hi "", hs]
    exact applyRen_eq_of_mem m s t hnd hmem
  · intro hno hmem'
    rcases List.mem_map.mp hmem' with ⟨c, hc, he⟩
    exact hno c hc he
  · intro hsnot
    show (⟨d.cols.map _, d.rows⟩ : DataFrame) = ⟨d.cols.map _, d.rows⟩
    have : d.cols.map (applyRen (m.filter (fun q => decide (¬(q.1 = s))))) =
        d.cols.map (applyRen m) :=
      List.map_congr_left (fun c hc =>
        applyRen_filter_ne m s c (fun he => hsnot (he ▸ hc)))
    rw [this]
  · intro rules now df dout hm hok hno hsa hmem'
    rcases normalize_ok_cols_mem rules now df dout hok s hmem' with hL | he
    · rcases List.mem_map.mp hL with ⟨c1, hc1, he1⟩
      rcases List.mem_map.mp hc1 with ⟨c0, hc0, rfl⟩
      rw [hm] at he1
      exact hno c0 hc0 he1
    · exact hsa he

/-- Witness for C7 (amended) on a concrete mapping `a ↦ b`. -/
theorem c7_witness :
    (renameStep [("a", "b")] ⟨["a"], [[Value.n 1]]⟩).rows = [[Value.n 1]] ∧
    (renameStep [("a", "b")] ⟨["a"], [[Value.n 1]]⟩).cols.getD 0 "" = "b" ∧
    "a" ∉ (renameStep [("a", "b")] ⟨["a"], [[Value.n 1]]⟩).cols ∧
    "a" ∉ (⟨["b", "etl_loaded_at"], []⟩ : DataFrame).cols := by
  have h := c7_rename [("a", "b")] ⟨["a"], [[Value.n 1]]⟩ "a" "b" (by decide) (by decide)
  refine ⟨h.1, h.2.1 0 (by decide) (by decide), h.2.2.1 (by decide), ?_⟩
  exact h.2.2.2.2 { column_mapping := [("a", "b")] } 0 ⟨["a"], []⟩
    ⟨["b", "etl_loaded_at"], []⟩ rfl rfl (by decide) (by decide)

/-! ## Cell tracking through the normalization tail (towards Claim C6) -/

theorem getD_map_total {α β : Type} (f : α → β) (l : List α) (n : Nat)
    (da : α) (db : β) (h : f da = db) :
    (l.map f).getD n db = f (l.getD n da) := by
  induction l generalizing n with
  | nil => simp [h.symm]
  | cons x xs ih =>
    cases n with
    | zero => rfl
    | succ k =>
      simp only [List.map_cons, List.getD_cons_succ]
      exact ih k

theorem getD_mem_of_lt {α : Type} (l : List α) (n : Nat) (d : α)
    (h : n < l.length) : l.getD n d ∈ l := by
  induction l generalizing n with
  | nil => simp at h
  | cons x xs ih =>
    cases n with
    | zero => exact List.mem_cons_self _ _
    | succ k =>
      rw [List.getD_cons_succ]
      exact List.mem_cons_of_mem _ (ih k (by simpa using h))

theorem mapRowAt_length (cols : List String) (name : String) (f : Value → Value)
    (r : List Value) : (mapRowAt cols name f r).length = r.length := by
  induction r generalizing cols with
  | nil => simp [mapRowAt]
  | cons v vs ih =>
    cases cols with
    | nil => simp [mapRowAt]
    | cons c cs => simp [mapRowAt, ih]

theorem mapRowAt_getD (cols : List String) (name : String) (f : Value → Value)
    (r : List Value) (i : Nat) (hi : i < cols.length) (hir : i < r.length) :
    (mapRowAt cols name f r).getD i Value.null =
      (if cols.getD i "" = name then f (r.getD i Value.null)
       else r.getD i Value.null) := by
  induction r generalizing cols i with
  | nil => simp at hir
  | cons v vs ih =>
    cases cols with
    | nil => simp at hi
    | cons c cs =>
      cases i with
      | zero => rfl
      | succ k =>
        simp only [mapRowAt, List.getD_cons_succ]
        exact ih cs k (by simpa using hi) (by simpa using hir)

theorem mapColAt_cols (name : String) (f : Value → Value) (d : DataFrame) :
    (mapColAt name f d).cols = d.cols := rfl

theorem mapColAt_rows_length (name : String) (f : Value → Value) (d : DataFrame) :
    (mapColAt name f d).rows.length = d.rows.length :=
  List.length_map _ _

theorem WF_mapColAt (name : String) (f : Value → Value) (d : DataFrame)
    (h : WF d) : WF (mapColAt name f d) := by
  intro r hr
  rcases List.mem_map.mp hr with ⟨r0, hr0, rfl⟩
  rw [mapRowAt_length]
  exact h r0 hr0

theorem getCell_mapColAt (name : String) (f : Value → Value) (d : DataFrame)
    (j i : Nat) (col : String)
    (hi : i < d.cols.length) (hcol : d.cols.getD i "" = col)
    (hwf : WF d) (hj : j < d.rows.length) :
    getCell (mapColAt name f d) j i =
      (if col = name then f (getCell d j i) else getCell d j i) := by
  have hr : d.rows.getD j [] ∈ d.rows := getD_mem_of_lt _ _ _ hj
  have hir : i < (d.rows.getD j []).length := by
    rw [hwf _ hr]
    exact hi
  show ((d.rows.map (mapRowAt d.cols name f)).getD j []).getD i Value.null = _
  rw [getD_map_lt (mapRowAt d.cols name f) d.rows j hj [] []]
  rw [mapRowAt_getD d.cols name f _ i hi hir, hcol]
  rfl

theorem colfold_cols (f : Value → Value) (ds : List String) (d : DataFrame) :
    (ds.foldl (fun d c => if c ∈ d.cols then mapColAt c f d else d) d).cols =
      d.cols := by
  induction ds generalizing d with
  | nil => rfl
  | cons c cs ih =>
    rw [List.foldl_cons]
    rw [ih]
    split <;> rfl

theorem colfold_rows_length (f : Value → Value) (ds : List String) (d : DataFrame) :
    (ds.foldl (fun d c => if c ∈ d.cols then mapColAt c f d else d) d).rows.length =
      d.rows.length := by
  induction ds generalizing d with
  | nil => rfl
  | cons c cs ih =>
    rw [List.foldl_cons, ih]
    split
    · exact mapColAt_rows_length _ _ _
    · rfl

theorem WF_colfold (f : Value → Value) (ds : List String) (d : DataFrame)
    (h : WF d) :
    WF (ds.foldl (fun d c => if c ∈ d.cols then mapColAt c f d else d) d) := by
  induction ds generalizing d with
  | nil => exact h
  | cons c cs ih =>
    rw [List.foldl_cons]
    refine ih _ ?_
    split
    · exact WF_mapColAt _ _ _ h
    · exact h

theorem getCell_colfold (f : Value → Value) (hf : ∀ v, f (f v) = f v)
    (ds : List String) (d : DataFrame) (j i : Nat) (col : String)
    (hi : i < d.cols.length) (hcol : d.cols.getD i "" = col)
    (hwf : WF d) (hj : j < d.rows.length) :
    getCell (ds.foldl (fun d c => if c ∈ d.cols then mapColAt c f d else d) d) j i =
      (if col ∈ ds then f (getCell d j i) else getCell d j i) := by
  induction ds generalizing d with
  | nil => simp
  | cons c cs ih =>
    rw [List.foldl_cons]
    have hcolmem : col ∈ d.cols := hcol ▸ getD_mem_of_lt _ _ _ hi
    by_cases hc : c ∈ d.cols
    · rw [if_pos hc]
      have hstep := getCell_mapColAt c f d j i col hi hcol hwf hj
      have hrec := ih (mapColAt c f d) hi hcol (WF_mapColAt _ _ _ hwf)
        (by rw [mapColAt_rows_length]; exact hj)
      rw [hrec, hstep]
      by_cases hcc : col = c
      · rw [if_pos hcc, if_pos (List.mem_cons.mpr (Or.inl hcc))]
        split
        · exact hf _
        · rfl
      · rw [if_neg hcc]
        by_cases hcs : col ∈ cs
        · rw [if_pos hcs, if_pos (List.mem_cons.mpr (Or.inr hcs))]
        · rw [if_neg hcs, if_neg (by simp [hcc, hcs])]
    · rw [if_neg hc]
      have hcc : col ≠ c := fun he => hc (he ▸ hcolmem)
      rw [ih d hi hcol hwf hj]
      by_cases hcs : col ∈ cs
      · rw [if_pos hcs, if_pos (List.mem_cons.mpr (Or.inr hcs))]
      · rw [if_neg hcs, if_neg (by simp [hcc, hcs])]

theorem coerceDate_idem (v : Value) : coerceDate (coerceDate v) = coerceDate v := by
  unfold coerceDate
  cases h : parseDate v
  · rfl
  · rfl

theorem coerceNum_idem (v : Value) : coerceNum (coerceNum v) = coerceNum v := by
  unfold coerceNum
  cases h : parseNum v
  · rfl
  · rfl

theorem getCell_stripStep (d : DataFrame) (j i : Nat) :
    getCell (stripStep d) j i = stripCell (getCell d j i) := by
  show ((d.rows.map stripRow).getD j []).getD i Value.null = _
  rw [getD_map_total stripRow d.rows j [] [] rfl]
  exact getD_map_total stripCell _ i Value.null Value.null rfl

theorem stripStep_rows_length (d : DataFrame) :
    (stripStep d).rows.length = d.rows.length :=
  List.length_map _ _

theorem WF_stripStep (d : DataFrame) (h : WF d) : WF (stripStep d) := by
  intro r hr
  rcases List.mem_map.mp hr with ⟨r0, hr0, rfl⟩
  rw [show (stripRow r0).length = r0.length from List.length_map _ _]
  exact h r0 hr0

theorem renameStep_cols_getD (m : List (String × String)) (d : DataFrame)
    (i : Nat) (hi : i < d.cols.length) :
    (renameStep m d).cols.getD i "" = applyRen m (d.cols.getD i "") :=
  getD_map_lt (applyRen m) d.cols i hi "" ""

theorem WF_renameStep (m : List (String × String)) (d : DataFrame)
    (h : WF d) : WF (renameStep m d) := by
  intro r hr
  rw [show (renameStep m d).cols.length = d.cols.length from List.length_map _ _]
  exact h r hr

theorem fillStep_rows_length (defaults : List (String × Value)) (d : DataFrame) :
    (fillStep defaults d).rows.length = d.rows.length := by
  induction defaults generalizing d with
  | nil => rfl
  | cons p ps ih =>
    simp only [fillStep, List.foldl_cons]
    rw [show (ps.foldl (fun d p => if p.1 ∈ d.cols then mapColAt p.1 (fillCell p.2) d else d)
      (if p.1 ∈ d.cols then mapColAt p.1 (fillCell p.2) d else d)) = fillStep ps
      (if p.1 ∈ d.cols then mapColAt p.1 (fillCell p.2) d else d) from rfl, ih]
    split
    · exact mapColAt_rows_length _ _ _
    · rfl

theorem WF_fillStep (defaults : List (String × Value)) (d : DataFrame)
    (h : WF d) : WF (fillStep defaults d) := by
  induction defaults generalizing d with
  | nil => exact h
  | cons p ps ih =>
    simp only [fillStep, List.foldl_cons]
    refine ih _ ?_
    split
    · exact WF_mapColAt _ _ _ h
    · exact h

theorem getCell_fillStep (defaults : List (String × Value)) (d : DataFrame)
    (j i : Nat) (col : String)
    (hi : i < d.cols.length) (hcol : d.cols.getD i "" = col)
    (hwf : WF d) (hj : j < d.rows.length)
    (hnk : ∀ p ∈ defaults, p.1 ≠ col) :
    getCell (fillStep defaults d) j i = getCell d j i := by
  induction defaults generalizing d with
  | nil => rfl
  | cons p ps ih =>
    simp only [fillStep, List.foldl_cons]
    have hstep : getCell (if p.1 ∈ d.cols then mapColAt p.1 (fillCell p.2) d else d) j i =
        getCell d j i := by
      split
      · rw [getCell_mapColAt _ _ _ _ _ col hi hcol hwf hj,
          if_neg (Ne.symm (hnk p (List.mem_cons_self _ _)))]
      · rfl
    have hcols : (if p.1 ∈ d.cols then mapColAt p.1 (fillCell p.2) d else d).cols =
        d.cols := by
      split <;> rfl
    have hrl : (if p.1 ∈ d.cols then mapColAt p.1 (fillCell p.2) d else d).rows.length =
        d.rows.length := by
      split
      · exact mapColAt_rows_length _ _ _
      · rfl
    have hwf' : WF (if p.1 ∈ d.cols then mapColAt p.1 (fillCell p.2) d else d) := by
      split
      · exact WF_mapColAt _ _ _ hwf
      · exact hwf
    exact (ih _ (by rw [hcols]; exact hi) (by rw [hcols]; exact hcol) hwf'
      (by rw [hrl]; exact hj) (fun q hq => hnk q (List.mem_cons_of_mem _ hq))).trans hstep

theorem getCell_auditStep (now : Nat) (d : DataFrame) (j i : Nat) (col : String)
    (hi : i < d.cols.length) (hcol : d.cols.getD i "" = col)
    (hwf : WF d) (hj : j < d.rows.length)
    (hna : col ≠ "etl_loaded_at") :
    getCell (auditStep now d) j i = getCell d j i := by
  unfold auditStep
  split
  · rw [getCell_mapColAt _ _ _ _ _ col hi hcol hwf hj, if_neg hna]
  · show ((d.rows.map (fun r => r ++ [Value.d now])).getD j []).getD i Value.null = _
    rw [getD_map_lt _ _ j hj [] []]
    have hr : d.rows.getD j [] ∈ d.rows := getD_mem_of_lt _ _ _ hj
    have hir : i < (d.rows.getD j []).length := by
      rw [hwf _ hr]
      exact hi
    rw [List.getD_append _ _ _ _ hir]
    rfl

theorem WF_stdStep (d : DataFrame) (h : WF d) : WF (stdStep d) := by
  intro r hr
  rw [show (stdStep d).cols.length = d.cols.length from List.length_map _ _]
  exact h r hr

theorem WF_dedupStep (d : DataFrame) (h : WF d) : WF (dedupStep d) := by
  intro r hr
  exact h r ((dedupByAux_sublist _ _ _).subset hr)

theorem WF_requiredStep (req : List String) (d d3 : DataFrame)
    (h : requiredStep req d = .ok d3) (hwf : WF d) : WF d3 := by
  intro r hr
  rw [requiredStep_ok_cols _ _ _ h]
  exact hwf r ((requiredStep_ok_rows _ _ _ h).subset hr)

/-- Counterexample to Claim C6 as stated: with
`date_columns = ["d"]` and `default_values = [("d", 7)]` on a table whose
`d` value `"zz"` cannot be parsed as a date, the coerced null is refilled
by the default-value step, so the unparsable value is `7`, not null, in
the output of `normalize`. -/
theorem c6_counterexample :
    parseDate (Value.s "zz") = none ∧
    ∃ d, normalize { date_columns := ["d"], default_values := [("d", Value.d 7)] } 0
        ⟨["d"], [[Value.s "zz"]]⟩ = .ok d ∧ getCell d 0 0 = Value.d 7 :=
  ⟨rfl, ⟨["d", "etl_loaded_at"], [[Value.d 7, Value.d 0]]⟩, rfl, rfl⟩

/-- Claim C6 (amended): for every table and rule set, every `date_columns`
name present at the conversion stage has its column mapped through the
`errors='coerce'` conversion — a value that cannot be parsed as a date
becomes null at that step, and `normalize` does not raise on it (the
required-column filter already succeeded) — and that null persists to the
final output of `normalize` provided `default_values` has no entry for the
column's post-rename name (a default refills it, see the counterexample)
and the post-rename name is not the audit column name. -/
theorem c6_date_coercion (rules : Rules) (now : Nat) (df df3 : DataFrame)
    (col : String) (j i : Nat)
    (h3 : requiredStep rules.required_columns (dedupStep (stdStep df)) = .ok df3)
    (hwf : WF df)
    (hi : i < df3.cols.length) (hcol : df3.cols.getD i "" = col)
    (hdc : col ∈ rules.date_columns)
    (hj : j < df3.rows.length)
    (hunp : parseDate (getCell df3 j i) = none)
    (hnk : ∀ p ∈ rules.default_values, p.1 ≠ applyRen rules.column_mapping col)
    (hna : applyRen rules.column_mapping col ≠ "etl_loaded_at") :
    normalize rules now df = .ok (postSteps rules now df3) ∧
    getCell (dateStep rules.date_columns df3) j i = coerceDate (getCell df3 j i) ∧
    coerceDate (getCell df3 j i) = Value.null ∧
    getCell (postSteps rules now df3) j i = Value.null := by
  have hwf3 : WF df3 :=
    WF_requiredStep _ _ _ h3 (WF_dedupStep _ (WF_stdStep _ hwf))
  have hnull : coerceDate (getCell df3 j i) = Value.null := by
    unfold coerceDate
    rw [hunp]
  have hd4 : getCell (dateStep rules.date_columns df3) j i =
      coerceDate (getCell df3 j i) := by
    show getCell (rules.date_columns.foldl
      (fun d c => if c ∈ d.cols then mapColAt c coerceDate d else d) df3) j i = _
    rw [getCell_colfold coerceDate coerceDate_idem _ _ j i col hi hcol hwf3 hj,
      if_pos hdc]
  -- facts at the date-step output
  have hc4 : (dateStep rules.date_columns df3).cols = df3.cols := dateStep_cols _ _
  have hwf4 : WF (dateStep rules.date_columns df3) := WF_colfold _ _ _ hwf3
  have hl4 : (dateStep rules.date_columns df3).rows.length = df3.rows.length :=
    colfold_rows_length _ _ _
  -- numeric step maps null to null at the tracked position
  have hd5 : getCell (numStep rules.numeric_columns
      (dateStep rules.date_columns df3)) j i = Value.null := by
    show getCell (rules.numeric_columns.foldl
      (fun d c => if c ∈ d.cols then mapColAt c coerceNum d else d) _) j i = _
    rw [getCell_colfold coerceNum coerceNum_idem _ _ j i col
      (by rw [hc4]; exact hi) (by rw [hc4]; exact hcol) hwf4
      (by rw [hl4]; exact hj), hd4, hnull]
    split <;> rfl
  have hc5 : (numStep rules.numeric_columns (dateStep rules.date_columns df3)).cols =
      df3.cols := by rw [numStep_cols, hc4]
  have hwf5 : WF (numStep rules.numeric_columns (dateStep rules.date_columns df3)) :=
    WF_colfold _ _ _ hwf4
  have hl5 : (numStep rules.numeric_columns
      (dateStep rules.date_columns df3)).rows.length = df3.rows.length :=
    (colfold_rows_length coerceNum rules.numeric_columns _).trans hl4
  -- whitespace stripping keeps nulls
  have hd6 : getCell (stripStep (numStep rules.numeric_columns
      (dateStep rules.date_columns df3))) j i = Value.null := by
    rw [getCell_stripStep, hd5]
    rfl
  have hwf6 : WF (stripStep (numStep rules.numeric_columns
      (dateStep rules.date_columns df3))) := WF_stripStep _ hwf5
  -- renaming leaves cell values in place and renames the tracked label
  have hd7 : getCell (renameStep rules.column_mapping (stripStep
      (numStep rules.numeric_columns (dateStep rules.date_columns df3)))) j i =
      Value.null := hd6
  have hi5 : i < (numStep rules.numeric_columns
      (dateStep rules.date_columns df3)).cols.length := by
    rw [hc5]
    exact hi
  have hcol5 : (numStep rules.numeric_columns
      (dateStep rules.date_columns df3)).cols.getD i "" = col := by
    rw [hc5]
    exact hcol
  have hc7 : (renameStep rules.column_mapping (stripStep
      (numStep rules.numeric_columns (dateStep rules.date_columns df3)))).cols.getD i "" =
      applyRen rules.column_mapping col := by
    have hr := renameStep_cols_getD rules.column_mapping (stripStep
      (numStep rules.numeric_columns (dateStep rules.date_columns df3))) i hi5
    rw [hr]
    exact congrArg (applyRen rules.column_mapping) hcol5
  have hi7 : i < (renameStep rules.column_mapping (stripStep
      (numStep rules.numeric_columns (dateStep rules.date_columns df3)))).cols.length := by
    simp only [renameStep]
    rw [List.length_map]
    exact hi5
  have hwf7 : WF (renameStep rules.column_mapping (stripStep
      (numStep rules.numeric_columns (dateStep rules.date_columns df3)))) :=
    WF_renameStep _ _ hwf6
  have hl7 : (renameStep rules.column_mapping (stripStep
      (numStep rules.numeric_columns (dateStep rules.date_columns df3)))).rows.length =
      df3.rows.length := by
    show (stripStep _).rows.length = _
    rw [stripStep_rows_length]
    exact hl5
  -- default filling skips the tracked column by hypothesis
  have hd8 : getCell (fillStep rules.default_values (renameStep rules.column_mapping
      (stripStep (numStep rules.numeric_columns (dateStep rules.date_columns df3))))) j i =
      Value.null := by
    rw [getCell_fillStep _ _ j i (applyRen rules.column_mapping col) hi7 hc7 hwf7
      (by rw [hl7]; exact hj) hnk, hd7]
  -- audit stamping does not touch the tracked position
  have hd9 : getCell (postSteps rules now df3) j i = Value.null := by
    show getCell (auditStep now _) j i = _
    rw [getCell_auditStep now _ j i (applyRen rules.column_mapping col)
      (by rw [fillStep_cols]; exact hi7) (by rw [fillStep_cols]; exact hc7)
      (WF_fillStep _ _ hwf7) (by rw [fillStep_rows_length, hl7]; exact hj) hna, hd8]
  exact ⟨normalize_of_requiredStep rules now df df3 h3, hd4, hnull, hd9⟩

/-- Witness for C6 (amended) on a one-cell table whose date value is
unparsable: the output cell is null. -/
theorem c6_witness :
    normalize { date_columns := ["d"] } 0 ⟨["d"], [[Value.s "zz"]]⟩ =
      .ok (postSteps { date_columns := ["d"] } 0 ⟨["d"], [[Value.s "zz"]]⟩) ∧
    getCell (postSteps { date_columns := ["d"] } 0 ⟨["d"], [[Value.s "zz"]]⟩) 0 0 =
      Value.null := by
  have h := c6_date_coercion { date_columns := ["d"] } 0 ⟨["d"], [[Value.s "zz"]]⟩
    ⟨["d"], [[Value.s "zz"]]⟩ "d" 0 0 rfl
    (by intro r hr; rw [List.mem_singleton] at hr; subst hr; rfl)
    (by decide) rfl (by decide) (by decide) rfl (by simp) (by decide)
  exact ⟨h.1, h.2.2.2⟩

/-! ## Audit timestamps and full-row cross-source deduplication (Claim C10) -/

theorem normalize_emptyRules (t : Nat) (cols : List String) (r : List Value)
    (haud : "etl_loaded_at" ∉ cols.map standardizeName) :
    normalize {} t ⟨cols, [r]⟩ =
      .ok ⟨cols.map standardizeName ++ ["etl_loaded_at"],
        [stripRow r ++ [Value.d t]]⟩ := by
  have hded : dedupBy (fun (x : List Value) => x) [r] = [r] := by
    simp [dedupBy, dedupByAux]
  have h2 : dedupStep (stdStep ⟨cols, [r]⟩) = ⟨cols.map standardizeName, [r]⟩ := by
    simp only [dedupStep, stdStep]
    rw [hded]
  have hreq : requiredStep (({} : Rules)).required_columns
      (dedupStep (stdStep ⟨cols, [r]⟩)) = .ok ⟨cols.map standardizeName, [r]⟩ := by
    rw [h2]
    rfl
  rw [normalize_of_requiredStep _ _ _ _ hreq]
  congr 1
  show auditStep t (renameStep []
    (stripStep ⟨cols.map standardizeName, [r]⟩)) = _
  have hmapren : ∀ l : List String, List.map (applyRen []) l = l := by
    intro l
    induction l with
    | nil => rfl
    | cons x xs ih => simp [applyRen, ih]
  have hren : renameStep [] (stripStep ⟨cols.map standardizeName, [r]⟩) =
      ⟨cols.map standardizeName, [stripRow r]⟩ := by
    simp only [renameStep, stripStep]
    rw [hmapren]
    rfl
  rw [hren]
  unfold auditStep
  rw [if_neg haud]
  rfl

theorem unionCols_pair (C : List String) (r1 r2 : List (List Value)) :
    unionCols [⟨C, r1⟩, ⟨C, r2⟩] = C := by
  simp only [unionCols, List.foldl_cons, List.foldl_nil]
  have h1 : C.filter (fun c => decide (c ∉ ([] : List String))) = C :=
    List.filter_eq_self.mpr (fun c _ => by simp)
  rw [List.nil_append, h1]
  have h2 : C.filter (fun c => decide (c ∉ C)) = [] :=
    List.filter_eq_nil_iff.mpr (fun c hc => by simp [hc])
  rw [h2, List.append_nil]

theorem cellAt_cons_ne (c : String) (cs : List String) (v : Value)
    (vs : List Value) (c2 : String) (h : c ≠ c2) :
    cellAt (c :: cs) (v :: vs) c2 = cellAt cs vs c2 := by
  simp only [cellAt, colIdx, if_neg h]
  cases colIdx cs c2 <;> simp

theorem alignRow_self (C : List String) (r : List Value) (hnd : C.Nodup)
    (hlen : r.length = C.length) : alignRow C C r = r := by
  induction C generalizing r with
  | nil =>
    cases r with
    | nil => rfl
    | cons v vs => simp at hlen
  | cons c cs ih =>
    cases r with
    | nil => simp at hlen
    | cons v vs =>
      show cellAt (c :: cs) (v :: vs) c :: cs.map (cellAt (c :: cs) (v :: vs)) = v :: vs
      have hhead : cellAt (c :: cs) (v :: vs) c = v := by
        simp [cellAt, colIdx]
      have htail : cs.map (cellAt (c :: cs) (v :: vs)) = cs.map (cellAt cs vs) :=
        List.map_congr_left (fun c2 hc2 =>
          cellAt_cons_ne c cs v vs c2
            (fun he => (List.nodup_cons.mp hnd).1 (he ▸ hc2)))
      rw [hhead, htail]
      exact congrArg (v :: ·) (ih vs (List.nodup_cons.mp hnd).2 (by simpa using hlen))

theorem crossDedup_no_id (df : DataFrame) (h : "id" ∉ df.cols) :
    crossDedup df = ⟨df.cols, dedupBy (fun r => r) df.rows⟩ := by
  simp only [crossDedup]
  have hkey : idKey df.cols = fun (r : List Value) => r :=
    funext (fun r => by simp [idKey, h])
  rw [hkey]

theorem dedupBy_id_pair (a b : List Value) :
    dedupBy (fun r => r) [a, b] = if b = a then [a] else [a, b] := by
  by_cases h : b = a <;> simp [dedupBy, dedupByAux, h]

/-- Claim C10: the audit column participates in full-row cross-source
deduplication.  Two sources producing the same one-row table, normalized
with timestamps `t1` and `t2` under an empty rule set (no `id` column
anywhere), load a merged table in which the two otherwise identical rows
are collapsed into one exactly when `t1 = t2`, and are both kept when the
timestamps differ. -/
theorem c10_audit_dedup (cols : List String) (r : List Value) (t1 t2 : Nat)
    (n1 n2 : String)
    (hlen : r.length = cols.length)
    (hnd : (cols.map standardizeName).Nodup)
    (hid : "id" ∉ cols.map standardizeName)
    (haud : "etl_loaded_at" ∉ cols.map standardizeName) :
    (run_etl {} [⟨n1, .ok ⟨cols, [r]⟩, t1⟩, ⟨n2, .ok ⟨cols, [r]⟩, t2⟩]).loaded =
      some ⟨cols.map standardizeName ++ ["etl_loaded_at"],
        if t1 = t2 then [stripRow r ++ [Value.d t1]]
        else [stripRow r ++ [Value.d t1], stripRow r ++ [Value.d t2]]⟩ := by
  have hn1 := normalize_emptyRules t1 cols r haud
  have hn2 := normalize_emptyRules t2 cols r haud
  have hcollect : collectSources {} [⟨n1, .ok ⟨cols, [r]⟩, t1⟩,
      ⟨n2, .ok ⟨cols, [r]⟩, t2⟩] =
      ([⟨cols.map standardizeName ++ ["etl_loaded_at"], [stripRow r ++ [Value.d t1]]⟩,
        ⟨cols.map standardizeName ++ ["etl_loaded_at"], [stripRow r ++ [Value.d t2]]⟩],
       []) := by
    simp [collectSources, processSource, hn1, hn2]
  rw [run_etl_loaded, hcollect]
  rw [if_neg (by simp)]
  have hndC : (cols.map standardizeName ++ ["etl_loaded_at"]).Nodup := by
    refine List.Nodup.append hnd (List.nodup_singleton _) ?_
    intro a ha hb
    rw [List.mem_singleton] at hb
    subst hb
    exact haud ha
  have hidC : "id" ∉ cols.map standardizeName ++ ["etl_loaded_at"] := by
    intro h
    rcases List.mem_append.mp h with h1 | h1
    · exact hid h1
    · rw [List.mem_singleton] at h1
      exact absurd h1 (by decide)
  have hlen1 : (stripRow r ++ [Value.d t1]).length =
      (cols.map standardizeName ++ ["etl_loaded_at"]).length := by
    simp [stripRow, hlen]
  have hlen2 : (stripRow r ++ [Value.d t2]).length =
      (cols.map standardizeName ++ ["etl_loaded_at"]).length := by
    simp [stripRow, hlen]
  have hconc : concatDFs
      [⟨cols.map standardizeName ++ ["etl_loaded_at"], [stripRow r ++ [Value.d t1]]⟩,
       ⟨cols.map standardizeName ++ ["etl_loaded_at"], [stripRow r ++ [Value.d t2]]⟩] =
      ⟨cols.map standardizeName ++ ["etl_loaded_at"],
       [stripRow r ++ [Value.d t1], stripRow r ++ [Value.d t2]]⟩ := by
    simp only [concatDFs, unionCols_pair]
    rw [show ∀ x y : List Value,
        ([(⟨cols.map standardizeName ++ ["etl_loaded_at"], [x]⟩ : DataFrame),
          ⟨cols.map standardizeName ++ ["etl_loaded_at"], [y]⟩].map
          (fun d => d.rows.map
            (alignRow (cols.map standardizeName ++ ["etl_loaded_at"]) d.cols))).flatten =
        [alignRow (cols.map standardizeName ++ ["etl_loaded_at"])
            (cols.map standardizeName ++ ["etl_loaded_at"]) x,
         alignRow (cols.map standardizeName ++ ["etl_loaded_at"])
            (cols.map standardizeName ++ ["etl_loaded_at"]) y]
      from fun x y => rfl]
    rw [alignRow_self _ _ hndC hlen1, alignRow_self _ _ hndC hlen2]
  rw [hconc, crossDedup_no_id _ hidC, dedupBy_id_pair]
  by_cases h : t1 = t2
  · subst h
    rw [if_pos rfl, if_pos rfl]
  · rw [if_neg (fun he : stripRow r ++ [Value.d t2] = stripRow r ++ [Value.d t1] => by
      have := List.append_cancel_left he
      rw [List.cons.injEq] at this
      exact h ((Value.d.injEq _ _).mp this.1).symm), if_neg h]

/-- Witness for C10: two identical one-row sources stamped 0 and 1 both
survive the final full-row deduplication. -/
theorem c10_witness :
    (run_etl {} [⟨"a", .ok ⟨["x"], [[Value.s "v"]]⟩, 0⟩,
                 ⟨"b", .ok ⟨["x"], [[Value.s "v"]]⟩, 1⟩]).loaded =
      some ⟨["x", "etl_loaded_at"],
        [[Value.s "v", Value.d 0], [Value.s "v", Value.d 1]]⟩ := by
  have h := c10_audit_dedup ["x"] [Value.s "v"] 0 1 "a" "b" rfl
    (by decide) (by decide) (by decide)
  exact h

end ETLSpec
